import Mathlib

/-!
Verification of the HaikuDepot package model and JSON-RPC client
(`src/apps/haikudepot/model/Model.cpp`,
`src/apps/haikudepot/server/WebAppInterface.cpp`).

The C++ classes are shallowly embedded: `PackageInfoRef` (a possibly-NULL
reference) becomes `Option PackageInfo`; a virtual `AcceptsPackage` that may
dereference a NULL reference returns `Option Bool`, where `none` models the
fault of a NULL dereference.  `BString` becomes `String` (bytes as `Char`s;
`BString::ToLower` lower-cases ASCII letters only, as `tolower` does per
byte).  The Haiku `List` template becomes `List` (`Add` appends at the end,
`Remove` erases the first matching occurrence, `Contains` is membership by
the equality operator of the elements).
-/

namespace HaikuDepot

/-- Install state of a package (`PackageState` in `PackageInfo.h`). -/
inductive PackageState
  | NONE
  | INSTALLED
  | ACTIVATED
  | UNINSTALLED
deriving DecidableEq, Repr

/-- The fields of `PackageInfo` that the sampled code reads: the five text
fields consulted by `SearchTermsFilter`, the category codes, the install
state and the prominence flag. -/
structure PackageInfo where
  name : String
  title : String
  publisherName : String
  shortDescription : String
  fullDescription : String
  categories : List String
  state : PackageState
  isProminent : Bool
deriving DecidableEq, Repr

/-- A depot: a name and its ordered package list (`DepotInfo`). -/
structure DepotInfo where
  name : String
  packages : List PackageInfo
deriving DecidableEq, Repr

/-- `BString::ToLower` lower-cases ASCII bytes `A`..`Z`. -/
def asciiToLower (c : Char) : Char :=
  if 65 ≤ c.toNat ∧ c.toNat ≤ 90 then Char.ofNat (c.toNat + 32) else c

/-- Lower-case a byte sequence, as `BString::ToLower` does. -/
def lowerChars (cs : List Char) : List Char :=
  cs.map asciiToLower

/-- `AnyFilter::AcceptsPackage`: accepts everything, NULL included. -/
def anyFilterAccepts (package : Option PackageInfo) : Option Bool :=
  some true

/-- `CategoryFilter::AcceptsPackage`: NULL is rejected, otherwise the
category codes of the package are scanned for an exact match with `fCategory`. -/
def categoryFilterAccepts (fCategory : String) (package : Option PackageInfo) :
    Option Bool :=
  match package with
  | none => some false
  | some p => some (p.categories.any (fun c => c == fCategory))

/-- `PackageList::Contains` applied to a possibly-NULL reference: the lists
held by the model contain only non-NULL packages, so a NULL reference is
never found. -/
def packageListContains (l : List PackageInfo) (package : Option PackageInfo) :
    Bool :=
  match package with
  | none => false
  | some p => l.contains p

/-- `DepotFilter::AcceptsPackage`: membership in the package list of the depot. -/
def depotFilterAccepts (fDepot : DepotInfo) (package : Option PackageInfo) :
    Option Bool :=
  some (packageListContains fDepot.packages package)

/-- `ContainedInFilter::AcceptsPackage`: membership in `fPackageList`. -/
def containedInFilterAccepts (fPackageList : List PackageInfo)
    (package : Option PackageInfo) : Option Bool :=
  some (packageListContains fPackageList package)

/-- `ContainedInEitherFilter::AcceptsPackage`: membership in either list. -/
def containedInEitherFilterAccepts (fPackageListA fPackageListB : List PackageInfo)
    (package : Option PackageInfo) : Option Bool :=
  some (packageListContains fPackageListA package
    || packageListContains fPackageListB package)

/-- The `va_arg` loop in the `NotContainedInFilter` constructor: it reads
lists from the variadic tail until the NULL terminator. -/
def collectVarArgLists : List (Option (List PackageInfo)) → List (List PackageInfo)
  | [] => []
  | none :: _ => []
  | some l :: rest => l :: collectVarArgLists rest

/-- The `NotContainedInFilter` constructor.  Its named `packageList`
parameter is shadowed by the loop-local variable of the same name, so only
the variadic arguments (up to the NULL terminator) are stored in
`fPackageLists`; the first, named argument is dropped. -/
def mkNotContainedInFilter (packageList : List PackageInfo)
    (varArgs : List (Option (List PackageInfo))) : List (List PackageInfo) :=
  collectVarArgLists varArgs

/-- `NotContainedInFilter::AcceptsPackage`: NULL rejected; otherwise accepts
iff no stored list contains the package. -/
def notContainedInFilterAccepts (fPackageLists : List (List PackageInfo))
    (package : Option PackageInfo) : Option Bool :=
  match package with
  | none => some false
  | some p => some (!(fPackageLists.any (fun l => l.contains p)))

/-- `StateFilter::AcceptsPackage`: dereferences the reference without a NULL
guard (`package->State()`), so a NULL package faults — modelled as `none`.
The comparison is against the constant `NONE`, not the configured
`fState`. -/
def stateFilterAccepts (fState : PackageState) (package : Option PackageInfo) :
    Option Bool :=
  match package with
  | none => none
  | some p => some (p.state == PackageState.NONE)

/-- `IsFeaturedFilter::AcceptsPackage`: non-NULL and prominent. -/
def isFeaturedFilterAccepts (package : Option PackageInfo) : Option Bool :=
  match package with
  | none => some false
  | some p => some p.isProminent

/-- The term-splitting loop of the `SearchTermsFilter` constructor: scan for
the next `' '` (and only `' '`), copy each non-empty chunk, lower-case it and
add it to `fSearchTerms`.  `acc` holds the current chunk reversed. -/
def splitTermsAux : List Char → List Char → List (List Char)
  | acc, [] => if acc.isEmpty then [] else [lowerChars acc.reverse]
  | acc, c :: cs =>
    if c = ' ' then
      if acc.isEmpty then splitTermsAux [] cs
      else lowerChars acc.reverse :: splitTermsAux [] cs
    else splitTermsAux (c :: acc) cs

/-- The state of a constructed `SearchTermsFilter`. -/
structure SearchTermsFilterS where
  fSearchTerms : List (List Char)
deriving DecidableEq, Repr

/-- The `SearchTermsFilter` constructor. -/
def mkSearchTermsFilter (searchTerms : String) : SearchTermsFilterS :=
  ⟨splitTermsAux [] searchTerms.data⟩

/-- Does `pattern` occur at the very start of `text`? (one comparison step
of `BString::FindFirst`). -/
def hasPrefixSeq : List Char → List Char → Bool
  | _, [] => true
  | [], _ :: _ => false
  | c :: cs, t :: ts => c == t && hasPrefixSeq cs ts

/-- `BString::FindFirst(pattern) >= 0`: scan every start position for a
match. -/
def containsSeq : List Char → List Char → Bool
  | [], pattern => pattern.isEmpty
  | c :: cs, pattern => hasPrefixSeq (c :: cs) pattern || containsSeq cs pattern

/-- `SearchTermsFilter::_TextContains`: lower-case the text and look for the
(already lower-cased) term as a substring. -/
def textContains (text : String) (term : List Char) : Bool :=
  containsSeq (lowerChars text.data) term

/-- The per-term disjunction of `SearchTermsFilter::AcceptsPackage`: the term
occurs in one of name, title, publisher name, short or full description. -/
def packageTextMatches (p : PackageInfo) (term : List Char) : Bool :=
  textContains p.name term
    || textContains p.title term
    || textContains p.publisherName term
    || textContains p.shortDescription term
    || textContains p.fullDescription term

/-- `SearchTermsFilter::AcceptsPackage`: NULL rejected; otherwise every
stored term must be found in one of the five package texts. -/
def searchTermsFilterAccepts (f : SearchTermsFilterS)
    (package : Option PackageInfo) : Option Bool :=
  match package with
  | none => some false
  | some p => some (f.fSearchTerms.all (fun term => packageTextMatches p term))

/-- `is_source_package`: the package name ends with `_source`. -/
def is_source_package (p : PackageInfo) : Bool :=
  p.name.endsWith "_source"

/-- `is_develop_package`: the name ends with `_devel` or `_debuginfo`. -/
def is_develop_package (p : PackageInfo) : Bool :=
  p.name.endsWith "_devel" || p.name.endsWith "_debuginfo"

/-- The fields of `Model` that `CreatePackageList`/`MatchesFilter` read.  The
three configured filters are kept as their dispatch functions on (non-NULL)
packages, matching the virtual `AcceptsPackage` calls. -/
structure Model where
  fDepots : List DepotInfo
  fDepotFilter : String
  fCategoryFilter : PackageInfo → Bool
  fSearchTermsFilter : PackageInfo → Bool
  fIsFeaturedFilter : PackageInfo → Bool
  fShowAvailablePackages : Bool
  fShowInstalledPackages : Bool
  fShowSourcePackages : Bool
  fShowDevelopPackages : Bool

/-- `Model::MatchesFilter`: the conjunction applied to each package. -/
def MatchesFilter (m : Model) (package : PackageInfo) : Bool :=
  m.fCategoryFilter package
    && m.fSearchTermsFilter package
    && m.fIsFeaturedFilter package
    && (m.fShowAvailablePackages || !(package.state == PackageState.NONE))
    && (m.fShowInstalledPackages || !(package.state == PackageState.ACTIVATED))
    && (m.fShowSourcePackages || !(is_source_package package))
    && (m.fShowDevelopPackages || !(is_develop_package package))

/-- The inner loop of `Model::CreatePackageList`: append each package of the
depot that passes `MatchesFilter`, in insertion order. -/
def filterPackagesLoop (m : Model) : List PackageInfo → List PackageInfo
  | [] => []
  | package :: rest =>
    if MatchesFilter m package then package :: filterPackagesLoop m rest
    else filterPackagesLoop m rest

/-- The outer loop of `Model::CreatePackageList`: skip a depot when a
non-empty `fDepotFilter` differs from its name, otherwise keep its matching
packages, in depot order. -/
def createPackageListAux (m : Model) : List DepotInfo → List PackageInfo
  | [] => []
  | depot :: rest =>
    if m.fDepotFilter.length > 0 ∧ m.fDepotFilter ≠ depot.name then
      createPackageListAux m rest
    else filterPackagesLoop m depot.packages ++ createPackageListAux m rest

/-- `Model::CreatePackageList`. -/
def CreatePackageList (m : Model) : List PackageInfo :=
  createPackageListAux m m.fDepots

/-- The three index lists of `Model` (as lists of package identities) and
the own state field of each package (`PackageInfo::SetState`).  Packages are
identified by an arbitrary type with decidable equality, standing for the
object identity of the C++ `PackageInfo`. -/
structure ModelIndexState (α : Type) where
  fInstalledPackages : List α
  fActivatedPackages : List α
  fUninstalledPackages : List α
  pkgState : α → PackageState

/-- The guarded `Add` used by `Model::SetPackageState`: append only when the
list does not already contain the package. -/
def addIfMissing {α : Type} [DecidableEq α] (l : List α) (p : α) : List α :=
  if p ∈ l then l else l ++ [p]

/-- `Model::SetPackageState`: relocate the package among the three index
lists according to the new state, then set the own state field of the package.
The `default` label of the switch shares the `NONE` branch. -/
def setPackageState {α : Type} [DecidableEq α] (m : ModelIndexState α) (p : α)
    (state : PackageState) : ModelIndexState α :=
  match state with
  | PackageState.NONE =>
    { fInstalledPackages := m.fInstalledPackages.erase p
      fActivatedPackages := m.fActivatedPackages.erase p
      fUninstalledPackages := m.fUninstalledPackages.erase p
      pkgState := fun q => if q = p then state else m.pkgState q }
  | PackageState.INSTALLED =>
    { fInstalledPackages := addIfMissing m.fInstalledPackages p
      fActivatedPackages := m.fActivatedPackages.erase p
      fUninstalledPackages := m.fUninstalledPackages.erase p
      pkgState := fun q => if q = p then state else m.pkgState q }
  | PackageState.ACTIVATED =>
    { fInstalledPackages := addIfMissing m.fInstalledPackages p
      fActivatedPackages := addIfMissing m.fActivatedPackages p
      fUninstalledPackages := m.fUninstalledPackages.erase p
      pkgState := fun q => if q = p then state else m.pkgState q }
  | PackageState.UNINSTALLED =>
    { fInstalledPackages := m.fInstalledPackages.erase p
      fActivatedPackages := m.fActivatedPackages.erase p
      fUninstalledPackages := addIfMissing m.fUninstalledPackages p
      pkgState := fun q => if q = p then state else m.pkgState q }

/-- The initial index state of the model: all three lists empty, every
state field at its default `NONE`. -/
def emptyIndexState (α : Type) : ModelIndexState α :=
  ⟨[], [], [], fun _ => PackageState.NONE⟩

/-- Apply a sequence of `SetPackageState` calls in order. -/
def applyStateCalls {α : Type} [DecidableEq α] (m : ModelIndexState α) :
    List (α × PackageState) → ModelIndexState α
  | [] => m
  | c :: rest => applyStateCalls (setPackageState m c.1 c.2) rest

/-- The state most recently set for a package by a call sequence, if any. -/
def lastSetState {α : Type} [DecidableEq α] :
    List (α × PackageState) → α → Option PackageState
  | [], _ => none
  | c :: rest, p =>
    match lastSetState rest p with
    | some s => some s
    | none => if c.1 = p then some c.2 else none

/-- Result codes of the JSON-RPC send path.  `B_OK`/`B_ERROR`/`B_BAD_DATA`
are Haiku status codes; `HD_NETWORK_INACCESSIBLE` and `HD_CLIENT_TOO_OLD`
are HaikuDepot codes, all pairwise distinct. -/
inductive ResultCode
  | B_OK
  | B_ERROR
  | HD_NETWORK_INACCESSIBLE
  | HD_CLIENT_TOO_OLD
  | B_BAD_DATA
deriving DecidableEq, Repr

/-- The environment a `_SendJsonRequest` call observes: the two external
checks (`ServerHelper::IsNetworkAvailable`, `ServerSettings::IsClientTooOld`)
and, should a request actually be issued, the HTTP status of the exchange
and the outcome of parsing the response body as JSON (`none` = malformed).
`α` is the type of parsed documents. -/
structure SendEnv (α : Type) where
  networkAvailable : Bool
  clientTooOld : Bool
  httpStatus : Nat
  parsedBody : Option α

/-- What a `_SendJsonRequest` call did: result code, the reply document when
one was parsed, whether an HTTP request was issued, whether the response
body was handed to the JSON parser, and how many times
`ServerHelper::NotifyClientTooOld` fired. -/
structure SendOutcome (α : Type) where
  code : ResultCode
  reply : Option α
  networkInvoked : Bool
  parseAttempted : Bool
  clientTooOldNotified : Nat
deriving DecidableEq, Repr

/-- `WebAppInterface::_SendJsonRequest`: the three pre-flight checks in
source order, then the HTTP exchange, then the switch on the status code,
then JSON parsing of the body (only on status 200). -/
def sendJsonRequest {α : Type} (env : SendEnv α) (requestDataSize : Nat) :
    SendOutcome α :=
  if requestDataSize = 0 then
    ⟨ResultCode.B_ERROR, none, false, false, 0⟩
  else if !env.networkAvailable then
    ⟨ResultCode.HD_NETWORK_INACCESSIBLE, none, false, false, 0⟩
  else if env.clientTooOld then
    ⟨ResultCode.HD_CLIENT_TOO_OLD, none, false, false, 0⟩
  else if env.httpStatus = 200 then
    match env.parsedBody with
    | some doc => ⟨ResultCode.B_OK, some doc, true, true, 0⟩
    | none => ⟨ResultCode.B_BAD_DATA, none, true, true, 0⟩
  else if env.httpStatus = 412 then
    ⟨ResultCode.HD_CLIENT_TOO_OLD, none, true, false, 1⟩
  else
    ⟨ResultCode.B_ERROR, none, true, false, 0⟩

/-- A parsed JSON-RPC response document is either a result envelope or an
error envelope (or anything else); `_SendJsonRequest` never inspects it. -/
inductive JsonEnvelope
  | resultDoc
  | errorDoc
deriving DecidableEq, Repr

/-- The environment of `Model::_PopulatePackageScreenshot`: the cache file
(modification time and content, when it exists and opens read-only), the
current time, the outcome of `WebAppInterface::RetrieveScreenshot`, and
whether the cache file opens for writing.  `β` is the type of byte
payloads. -/
structure ScreenshotEnv (β : Type) where
  cacheFile : Option (Int × β)
  now : Int
  fetchResult : Option β
  writeOk : Bool

/-- What a `_PopulatePackageScreenshot` call did: the screenshot added to the
package (if any), whether the network retrieval path ran, and the bytes
written back to the cache file (if any). -/
structure ScreenshotOutcome (β : Type) where
  screenshot : Option β
  networkInvoked : Bool
  cacheWritten : Option β
deriving DecidableEq, Repr

/-- The network tail of `Model::_PopulatePackageScreenshot`: retrieve the
screenshot; on success add it and write the bytes back to the cache file
(skipped, not fatal, when the file does not open for writing); on failure
only log. -/
def fetchScreenshotFromNetwork {β : Type} (env : ScreenshotEnv β) :
    ScreenshotOutcome β :=
  match env.fetchResult with
  | some bytes => ⟨some bytes, true, if env.writeOk then some bytes else none⟩
  | none => ⟨none, true, none⟩

/-- `Model::_PopulatePackageScreenshot`: a cache file that exists is used
directly when the caller asked for cache-only use or its modification time
is within 60*60 seconds of now; otherwise a cache-only call returns empty
handed, and any other call takes the network path. -/
def populatePackageScreenshot {β : Type} (env : ScreenshotEnv β)
    (fromCacheOnly : Bool) : ScreenshotOutcome β :=
  match env.cacheFile with
  | some entry =>
    if fromCacheOnly ∨ env.now - entry.1 < 60 * 60 then
      ⟨some entry.2, false, none⟩
    else
      fetchScreenshotFromNetwork env
  | none =>
    if fromCacheOnly then ⟨none, false, none⟩
    else fetchScreenshotFromNetwork env

/-- The em-dash separator from `HaikuDepotConstants.h` (its exact text is
immaterial to the claims). -/
def STR_MDASH : String := "—"

/-- The optional `pkgVersion` sub-message of a rating item.  A `none` field
means the corresponding `FindString`/`FindDouble` fails and the local
variable keeps its initial value (`"?"`, `"?"`, `""`, `-1`, `""`).
`revision` arrives as a JSON double; the sampled responses carry integers,
so it is modelled as `Int` (the source truncates it with a C cast before
printing). -/
structure VersionInfo where
  major : Option String
  minor : Option String
  micro : Option String
  revision : Option Int
  architectureCode : Option String
deriving DecidableEq, Repr

/-- One rating item of the `items` sequence.  `userNickname` is `none` when
the item lacks a `user` sub-message or that sub-message lacks a `nickname`.
`rating` is `none` when `FindDouble("rating")` fails (the source then uses
`-1`); as with `revision` it is modelled as `Int`. -/
structure RatingItem where
  code : Option String
  userNickname : Option String
  naturalLanguageCode : Option String
  comment : Option String
  rating : Option Int
  pkgVersion : Option VersionInfo
  createTimestamp : Option Int
deriving DecidableEq, Repr

/-- A `UserRating` as assembled by `Model::PopulatePackage`. -/
structure UserRating where
  userNickname : String
  rating : Int
  comment : String
  languageCode : String
  versionString : String
  createTimestamp : Int
deriving DecidableEq, Repr

/-- The version-string composition of `Model::PopulatePackage`: start from
`major "." minor` (with the `"?"` defaults), append `"." micro` when micro
is non-empty, `"-" revision` when revision is positive, and the em-dash plus
architecture code when that is non-empty. -/
def composeVersionString (v : Option VersionInfo) : String :=
  let major := match v with | none => "?" | some vi => vi.major.getD "?"
  let minor := match v with | none => "?" | some vi => vi.minor.getD "?"
  let micro := match v with | none => "" | some vi => vi.micro.getD ""
  let revision : Int := match v with | none => -1 | some vi => vi.revision.getD (-1)
  let architectureCode :=
    match v with | none => "" | some vi => vi.architectureCode.getD ""
  let s1 := major ++ "." ++ minor
  let s2 := if micro.length = 0 then s1 else s1 ++ "." ++ micro
  let s3 := if revision > 0 then s2 ++ "-" ++ toString revision else s2
  if architectureCode.length = 0 then s3
  else s3 ++ " " ++ STR_MDASH ++ " " ++ architectureCode

/-- The body of the rating loop for one item: `continue` (= `none`) when the
item has no `code`, no user nickname, or neither a comment nor a rating
other than the `-1` default; otherwise the assembled `UserRating`. -/
def processRatingItem (item : RatingItem) : Option UserRating :=
  match item.code with
  | none => none
  | some _ =>
    match item.userNickname with
    | none => none
    | some user =>
      let languageCode := item.naturalLanguageCode.getD ""
      let comment := item.comment.getD ""
      let rating := item.rating.getD (-1)
      if comment.length = 0 ∧ rating = -1 then none
      else
        some ⟨user, rating, comment, languageCode,
          composeVersionString item.pkgVersion, item.createTimestamp.getD 0⟩

/-- The rating loop of `Model::PopulatePackage`: the items sequence under
keys `"0"`, `"1"`, ... is modelled positionally, `none` standing for a
missing key; the loop stops at the first missing key and otherwise processes
every item, skipped or not. -/
def unpackUserRatings : List (Option RatingItem) → List UserRating
  | [] => []
  | none :: _ => []
  | some item :: rest =>
    match processRatingItem item with
    | none => unpackUserRatings rest
    | some r => r :: unpackUserRatings rest

/-- Claim-side notion for C2 as amended: the non-empty chunks of the search
string split at space characters, lower-cased, expressed through
`List.splitOn`. -/
def spaceSeparatedTerms (s : String) : List (List Char) :=
  ((s.data.splitOn ' ').filter (fun t => !t.isEmpty)).map lowerChars

/-- Claim-side notion for C2 as written: the non-empty chunks of the search
string split at whitespace characters, lower-cased. -/
def whitespaceSeparatedTerms (s : String) : List (List Char) :=
  ((s.data.splitOnP (fun c => c.isWhitespace)).filter (fun t => !t.isEmpty)).map
    lowerChars

/-- The items the rating loop visits: the positional items up to the first
missing key. -/
def takeWhileSome {γ : Type} : List (Option γ) → List γ
  | [] => []
  | none :: _ => []
  | some x :: rest => x :: takeWhileSome rest

/-- Claim-side (amended) acceptance condition for a rating item: it has a
`code`, a user nickname, and a comment or a rating other than the `-1`
default. -/
def ratingItemAccepted (item : RatingItem) : Bool :=
  item.code.isSome && item.userNickname.isSome
    && !(decide ((item.comment.getD "").length = 0 ∧ item.rating.getD (-1) = -1))

/-- The `UserRating` assembled from an accepted item. -/
def mkUserRatingFromItem (item : RatingItem) : UserRating :=
  ⟨item.userNickname.getD "", item.rating.getD (-1), item.comment.getD "",
    item.naturalLanguageCode.getD "", composeVersionString item.pkgVersion,
    item.createTimestamp.getD 0⟩

/-- A sample non-NULL package used in concrete instantiations below. -/
def samplePackage : PackageInfo :=
  ⟨"pkg", "", "", "", "", [], PackageState.NONE, false⟩

/-- A package whose name is the two terms joined by a space character. -/
def pkgSpaceAB : PackageInfo :=
  ⟨"a b", "", "", "", "", [], PackageState.NONE, false⟩

/-- A rating item with a code, a comment and a rating but no user
nickname. -/
def ratingItemNoNickname : RatingItem :=
  ⟨some "r1", none, none, some "great", some 5, none, none⟩

/-- C4: the three pre-flight checks of `_SendJsonRequest` run before any
network I/O, in order, each short-circuiting with its own failure code: an
empty request body yields the generic failure, then an unavailable network
yields the network-inaccessible code, then a stale client yields the
client-too-old code; in all three cases no network request is issued and the
three codes are pairwise distinct. -/
theorem c4_preflight_checks {α : Type} (env : SendEnv α) (n : Nat) :
    (n = 0 →
      sendJsonRequest env n = ⟨ResultCode.B_ERROR, none, false, false, 0⟩)
    ∧ (n ≠ 0 → env.networkAvailable = false →
      sendJsonRequest env n
        = ⟨ResultCode.HD_NETWORK_INACCESSIBLE, none, false, false, 0⟩)
    ∧ (n ≠ 0 → env.networkAvailable = true → env.clientTooOld = true →
      sendJsonRequest env n
        = ⟨ResultCode.HD_CLIENT_TOO_OLD, none, false, false, 0⟩)
    ∧ ResultCode.B_ERROR ≠ ResultCode.HD_NETWORK_INACCESSIBLE
    ∧ ResultCode.B_ERROR ≠ ResultCode.HD_CLIENT_TOO_OLD
    ∧ ResultCode.HD_NETWORK_INACCESSIBLE ≠ ResultCode.HD_CLIENT_TOO_OLD := by
  refine ⟨?_, ?_, ?_, by decide, by decide, by decide⟩ <;>
    intros <;> simp_all [sendJsonRequest]

/-- Concrete instantiation of the C4 theorem at each of the three pre-flight
rejection inputs. -/
theorem c4_preflight_checks_witness :
    sendJsonRequest (⟨true, false, 200, some JsonEnvelope.resultDoc⟩ :
        SendEnv JsonEnvelope) 0
      = ⟨ResultCode.B_ERROR, none, false, false, 0⟩
    ∧ sendJsonRequest (⟨false, false, 200, none⟩ : SendEnv JsonEnvelope) 5
      = ⟨ResultCode.HD_NETWORK_INACCESSIBLE, none, false, false, 0⟩
    ∧ sendJsonRequest (⟨true, true, 200, none⟩ : SendEnv JsonEnvelope) 5
      = ⟨ResultCode.HD_CLIENT_TOO_OLD, none, false, false, 0⟩ :=
  ⟨(c4_preflight_checks _ 0).1 rfl,
    (c4_preflight_checks _ 5).2.1 (by decide) rfl,
    (c4_preflight_checks _ 5).2.2.1 (by decide) rfl rfl⟩

/-- C5: once a request reaches the network, the response body is handed to
the JSON parser exactly when the HTTP status is 200; on 200 a well-formed
body yields `B_OK` with the parsed document (whatever that document is, a
result or an error envelope) and a malformed body yields `B_BAD_DATA`;
status 412 fires the client-too-old notification exactly once and returns
the client-too-old code; any other status returns the generic failure with
the body never parsed. -/
theorem c5_http_status_mapping {α : Type} (env : SendEnv α) (n : Nat)
    (h : n ≠ 0) (hn : env.networkAvailable = true)
    (hc : env.clientTooOld = false) :
    ((sendJsonRequest env n).parseAttempted = true ↔ env.httpStatus = 200)
    ∧ (env.httpStatus = 200 → ∀ d : α, env.parsedBody = some d →
      sendJsonRequest env n = ⟨ResultCode.B_OK, some d, true, true, 0⟩)
    ∧ (env.httpStatus = 200 → env.parsedBody = none →
      sendJsonRequest env n = ⟨ResultCode.B_BAD_DATA, none, true, true, 0⟩)
    ∧ (env.httpStatus = 412 →
      sendJsonRequest env n
        = ⟨ResultCode.HD_CLIENT_TOO_OLD, none, true, false, 1⟩)
    ∧ (env.httpStatus ≠ 200 → env.httpStatus ≠ 412 →
      sendJsonRequest env n = ⟨ResultCode.B_ERROR, none, true, false, 0⟩) := by
  by_cases h200 : env.httpStatus = 200
  · cases hb : env.parsedBody with
    | none => simp [sendJsonRequest, h, hn, hc, h200, hb]
    | some d => simp [sendJsonRequest, h, hn, hc, h200, hb]
  · by_cases h412 : env.httpStatus = 412
    · simp [sendJsonRequest, h, hn, hc, h200, h412]
    · simp [sendJsonRequest, h, hn, hc, h200, h412]

/-- Concrete instantiation of the C5 theorem: a 412 response notifies once
and maps to client-too-old, and a 200 response carrying an error envelope
still succeeds with that document. -/
theorem c5_http_status_mapping_witness :
    sendJsonRequest (⟨true, false, 412, none⟩ : SendEnv JsonEnvelope) 3
      = ⟨ResultCode.HD_CLIENT_TOO_OLD, none, true, false, 1⟩
    ∧ sendJsonRequest
        (⟨true, false, 200, some JsonEnvelope.errorDoc⟩ : SendEnv JsonEnvelope) 3
      = ⟨ResultCode.B_OK, some JsonEnvelope.errorDoc, true, true, 0⟩ :=
  ⟨(c5_http_status_mapping (⟨true, false, 412, none⟩ : SendEnv JsonEnvelope) 3
      (by decide) rfl rfl).2.2.2.1 rfl,
    (c5_http_status_mapping
      (⟨true, false, 200, some JsonEnvelope.errorDoc⟩ : SendEnv JsonEnvelope) 3
      (by decide) rfl rfl).2.1 rfl JsonEnvelope.errorDoc rfl⟩

/-- C10: the complement filter never consults the first, named constructor
argument: whenever a non-NULL package is absent from every list of the
variadic tail, it is accepted, its membership in the first list
notwithstanding. -/
theorem c10_first_list_ignored (first : List PackageInfo)
    (varArgs : List (Option (List PackageInfo))) (p : PackageInfo)
    (hfirst : p ∈ first) (hrest : ∀ l ∈ collectVarArgLists varArgs, p ∉ l) :
    notContainedInFilterAccepts (mkNotContainedInFilter first varArgs) (some p)
      = some true := by
  have hany : (collectVarArgLists varArgs).any (fun l => l.contains p)
      = false := by
    rw [List.any_eq_false]
    intro l hl
    simpa using hrest l hl
  show some (!(collectVarArgLists varArgs).any (fun l => l.contains p))
    = some true
  rw [hany]
  rfl

/-- Concrete instantiation of the C10 theorem: a package contained only in
the first constructor argument is accepted. -/
theorem c10_first_list_ignored_witness :
    notContainedInFilterAccepts
      (mkNotContainedInFilter [samplePackage] [some [], none])
      (some samplePackage) = some true :=
  c10_first_list_ignored [samplePackage] [some [], none] samplePackage
    (by decide) (by decide)

/-- C7: the NULL-package behaviour of every filter predicate, evaluated: the
state filter dereferences the NULL reference and faults (`none`) instead of
rejecting, for every configured state; all other non-accept-all predicates
return `false`. -/
theorem c7_null_package_handling :
    stateFilterAccepts PackageState.NONE none = none
    ∧ (∀ s : PackageState, stateFilterAccepts s none = none)
    ∧ categoryFilterAccepts "x" none = some false
    ∧ depotFilterAccepts ⟨"d", []⟩ none = some false
    ∧ containedInFilterAccepts [] none = some false
    ∧ containedInEitherFilterAccepts [] [] none = some false
    ∧ notContainedInFilterAccepts [] none = some false
    ∧ searchTermsFilterAccepts (mkSearchTermsFilter "x") none = some false
    ∧ isFeaturedFilterAccepts none = some false :=
  ⟨rfl, fun _ => rfl, rfl, rfl, rfl, rfl, rfl, rfl, rfl⟩

/-- C3 counterexample: a single `SetPackageState(p, ACTIVATED)` from the
empty index state puts the package in the installed AND the activated list,
so a package can appear in two of the three index lists, and ACTIVATED does
not mean the activated list only. -/
theorem c3_counterexample :
    (0 : Nat) ∈ (setPackageState (emptyIndexState Nat) 0
      PackageState.ACTIVATED).fInstalledPackages
    ∧ (0 : Nat) ∈ (setPackageState (emptyIndexState Nat) 0
      PackageState.ACTIVATED).fActivatedPackages := by
  decide

/-- C9: a cache file used when fresh or when cache-only use is requested (no
network), nothing produced when there is no cache file and network use is
disallowed, and otherwise the network path runs: a successful fetch yields
the fetched bytes, written back to the cache exactly when the cache file
opens for writing, the write failure changing nothing else. -/
theorem c9_screenshot_cache {β : Type} (env : ScreenshotEnv β)
    (fromCacheOnly : Bool) :
    (∀ mt : Int, ∀ bytes : β, env.cacheFile = some (mt, bytes) →
      (fromCacheOnly = true ∨ env.now - mt < 60 * 60) →
      populatePackageScreenshot env fromCacheOnly = ⟨some bytes, false, none⟩)
    ∧ (env.cacheFile = none → fromCacheOnly = true →
      populatePackageScreenshot env fromCacheOnly = ⟨none, false, none⟩)
    ∧ (fromCacheOnly = false →
      (∀ mt : Int, ∀ bytes : β, env.cacheFile = some (mt, bytes) →
        ¬(env.now - mt < 60 * 60)) →
      (populatePackageScreenshot env fromCacheOnly).networkInvoked = true
      ∧ (∀ b : β, env.fetchResult = some b →
        (populatePackageScreenshot env fromCacheOnly).screenshot = some b
        ∧ (env.writeOk = true →
          (populatePackageScreenshot env fromCacheOnly).cacheWritten = some b)
        ∧ (env.writeOk = false →
          (populatePackageScreenshot env fromCacheOnly).cacheWritten = none))
      ∧ (env.fetchResult = none →
        (populatePackageScreenshot env fromCacheOnly).screenshot = none)) := by
  refine ⟨?_, ?_, ?_⟩
  · intro mt bytes hcf hfresh
    rcases hfresh with h | h
    · simp [populatePackageScreenshot, hcf, h]
    · have h' : env.now - mt < 3600 := by omega
      simp [populatePackageScreenshot, hcf, h']
  · intro hcf honly
    simp [populatePackageScreenshot, hcf, honly]
  · intro honly hstale
    cases hcf : env.cacheFile with
    | none =>
      cases hf : env.fetchResult with
      | none =>
        simp [populatePackageScreenshot, hcf, honly, fetchScreenshotFromNetwork, hf]
      | some b =>
        cases hw : env.writeOk <;>
          simp [populatePackageScreenshot, hcf, honly, fetchScreenshotFromNetwork,
            hf, hw]
    | some entry =>
      have hst := hstale entry.1 entry.2 (by rw [hcf])
      have hst' : ¬(env.now - entry.1 < 3600) := by omega
      cases hf : env.fetchResult with
      | none =>
        simp [populatePackageScreenshot, hcf, honly, hst',
          fetchScreenshotFromNetwork, hf]
      | some b =>
        cases hw : env.writeOk <;>
          simp [populatePackageScreenshot, hcf, honly, hst',
            fetchScreenshotFromNetwork, hf, hw]

/-- Concrete instantiation of the C9 theorem: a fresh cache entry is served
without network, and a stale entry is re-fetched and written back. -/
theorem c9_screenshot_cache_witness :
    populatePackageScreenshot
      (⟨some (1000, 7), 1500, some 9, true⟩ : ScreenshotEnv Nat) false
      = ⟨some 7, false, none⟩
    ∧ (populatePackageScreenshot
      (⟨some (1000, 7), 9999, some 9, true⟩ : ScreenshotEnv Nat) false).networkInvoked
      = true := by
  constructor
  · exact (c9_screenshot_cache
      (⟨some (1000, 7), 1500, some 9, true⟩ : ScreenshotEnv Nat) false).1
      1000 7 rfl (Or.inr (by decide))
  · exact ((c9_screenshot_cache
      (⟨some (1000, 7), 9999, some 9, true⟩ : ScreenshotEnv Nat) false).2.2
      rfl (by intro mt bytes hmt; simp at hmt ⊢; omega)).1

/-- C6 counterexample: an item carrying a code, a comment and a rating but
no user nickname is skipped by the loop, while the claimed skip condition
(no code, or neither comment nor rating) does not hold of it. -/
theorem c6_counterexample :
    ratingItemNoNickname.code.isSome = true
    ∧ ¬((ratingItemNoNickname.comment.getD "").length = 0
        ∧ ratingItemNoNickname.rating.getD (-1) = -1)
    ∧ unpackUserRatings [some ratingItemNoNickname] = [] := by
  refine ⟨rfl, by decide, rfl⟩

/-- The loop body succeeds exactly on accepted items, producing the
assembled rating. -/
theorem processRatingItem_eq (item : RatingItem) :
    processRatingItem item
      = if ratingItemAccepted item then some (mkUserRatingFromItem item)
        else none := by
  unfold processRatingItem ratingItemAccepted mkUserRatingFromItem
  cases hc : item.code with
  | none => simp [hc]
  | some c =>
    cases hn : item.userNickname with
    | none => simp [hc, hn]
    | some user =>
      by_cases hcond : (item.comment.getD "").length = 0
          ∧ item.rating.getD (-1) = -1 <;>
        simp [hc, hn, hcond]

/-- C6 (amended): the rating loop visits the items keyed `"0"`, `"1"`, ...
up to the first missing key and processes each independently; an item is
skipped exactly when it lacks the `code`, lacks a user nickname, or has
neither a comment nor a rating other than the `-1` default; every other item
contributes the assembled rating, whose version string is composed by
`composeVersionString` (major.minor, then `.micro` when micro is non-empty,
then `-revision` when revision is positive, then the architecture code when
non-empty, with `?` for a missing major or minor). -/
theorem c6_rating_unpack (items : List (Option RatingItem)) :
    unpackUserRatings items
      = ((takeWhileSome items).filter ratingItemAccepted).map mkUserRatingFromItem
    ∧ (∀ item : RatingItem, ratingItemAccepted item = false ↔
      (item.code = none ∨ item.userNickname = none ∨
        ((item.comment.getD "").length = 0 ∧ item.rating.getD (-1) = -1))) := by
  constructor
  · induction items with
    | nil => rfl
    | cons o rest ih =>
      cases o with
      | none => rfl
      | some item =>
        have hstep : unpackUserRatings (some item :: rest)
            = match processRatingItem item with
              | none => unpackUserRatings rest
              | some r => r :: unpackUserRatings rest := rfl
        rw [hstep, processRatingItem_eq]
        cases hacc : ratingItemAccepted item <;>
          simp [takeWhileSome, List.filter_cons, hacc, ih]
  · intro item
    unfold ratingItemAccepted
    cases hc : item.code with
    | none => simp [hc]
    | some c =>
      cases hn : item.userNickname with
      | none => simp [hc, hn]
      | some user =>
        by_cases hcond : (item.comment.getD "").length = 0
            ∧ item.rating.getD (-1) = -1 <;>
          simp [hc, hn, hcond]

/-- Membership after the guarded `Add`. -/
theorem mem_addIfMissing {α : Type} [DecidableEq α] (l : List α) (p q : α) :
    q ∈ addIfMissing l p ↔ q ∈ l ∨ q = p := by
  by_cases h : p ∈ l
  · rw [addIfMissing, if_pos h]
    constructor
    · exact Or.inl
    · rintro (hq | rfl)
      · exact hq
      · exact h
  · rw [addIfMissing, if_neg h]
    simp

/-- The guarded `Add` keeps a duplicate-free list duplicate-free. -/
theorem nodup_addIfMissing {α : Type} [DecidableEq α] (l : List α) (p : α)
    (h : l.Nodup) : (addIfMissing l p).Nodup := by
  by_cases hp : p ∈ l
  · rw [addIfMissing, if_pos hp]
    exact h
  · rw [addIfMissing, if_neg hp]
    simp [List.nodup_append, h, hp]

/-- The guarded `Add` is idempotent. -/
theorem addIfMissing_idem {α : Type} [DecidableEq α] (l : List α) (p : α) :
    addIfMissing (addIfMissing l p) p = addIfMissing l p := by
  have h : p ∈ addIfMissing l p := (mem_addIfMissing l p p).2 (Or.inr rfl)
  show (if p ∈ addIfMissing l p then addIfMissing l p else _) = addIfMissing l p
  rw [if_pos h]

/-- The invariant tying the three index lists to an assignment `g` of the
most recently set state of each package: the lists are duplicate-free and
membership follows the relocation table of `SetPackageState` (`INSTALLED`
and `ACTIVATED` are both in the installed list, only `ACTIVATED` in the
activated list, only `UNINSTALLED` in the uninstalled list). -/
def IndexInv {α : Type} [DecidableEq α] (m : ModelIndexState α)
    (g : α → Option PackageState) : Prop :=
  m.fInstalledPackages.Nodup ∧ m.fActivatedPackages.Nodup
    ∧ m.fUninstalledPackages.Nodup
    ∧ ∀ p : α,
      (p ∈ m.fInstalledPackages ↔
        g p = some PackageState.INSTALLED ∨ g p = some PackageState.ACTIVATED)
      ∧ (p ∈ m.fActivatedPackages ↔ g p = some PackageState.ACTIVATED)
      ∧ (p ∈ m.fUninstalledPackages ↔ g p = some PackageState.UNINSTALLED)

/-- One `SetPackageState` call preserves the invariant, updating the
assignment at the touched package. -/
theorem indexInv_setPackageState {α : Type} [DecidableEq α]
    (m : ModelIndexState α) (g : α → Option PackageState) (p : α)
    (s : PackageState) (h : IndexInv m g) :
    IndexInv (setPackageState m p s)
      (fun q => if q = p then some s else g q) := by
  obtain ⟨hi, ha, hu, hmem⟩ := h
  cases s <;>
    refine ⟨?_, ?_, ?_, ?_⟩ <;>
    first
      | exact List.Nodup.erase _ hi
      | exact List.Nodup.erase _ ha
      | exact List.Nodup.erase _ hu
      | exact nodup_addIfMissing _ _ hi
      | exact nodup_addIfMissing _ _ ha
      | exact nodup_addIfMissing _ _ hu
      | · intro q
          by_cases hq : q = p
          · subst hq
            simp [setPackageState, hi.mem_erase_iff, ha.mem_erase_iff,
              hu.mem_erase_iff, mem_addIfMissing, hmem q]
          · simp [setPackageState, hi.mem_erase_iff, ha.mem_erase_iff,
              hu.mem_erase_iff, mem_addIfMissing, hq, hmem q]

/-- A sequence of `SetPackageState` calls preserves the invariant, composing
the most recently set states over the initial assignment. -/
theorem indexInv_applyStateCalls {α : Type} [DecidableEq α]
    (calls : List (α × PackageState)) (m : ModelIndexState α)
    (g : α → Option PackageState) (h : IndexInv m g) :
    IndexInv (applyStateCalls m calls)
      (fun q => match lastSetState calls q with
        | some s => some s
        | none => g q) := by
  induction calls generalizing m g with
  | nil => exact h
  | cons c rest ih =>
    have step := indexInv_setPackageState m g c.1 c.2 h
    have hrec := ih (setPackageState m c.1 c.2)
      (fun q => if q = c.1 then some c.2 else g q) step
    have hfun : (fun q => match lastSetState (c :: rest) q with
        | some s => some s
        | none => g q)
      = (fun q => match lastSetState rest q with
        | some s => some s
        | none => if q = c.1 then some c.2 else g q) := by
      funext q
      show (match (match lastSetState rest q with
          | some s => some s
          | none => if c.1 = q then some c.2 else none) with
        | some s => some s
        | none => g q) = _
      cases lastSetState rest q with
      | some s => rfl
      | none =>
        by_cases hq : c.1 = q
        · simp [hq]
        · have hq' : ¬(q = c.1) := fun hh => hq hh.symm
          simp [hq, hq']
    rw [show applyStateCalls m (c :: rest)
      = applyStateCalls (setPackageState m c.1 c.2) rest from rfl, hfun]
    exact hrec

/-- C3 (amended): starting from empty index lists, after any sequence of
`SetPackageState` calls each package sits in the index lists determined by
the state most recently set for it: in no list when never set or last set to
`NONE`, in the installed list alone for `INSTALLED`, in the installed AND
activated lists for `ACTIVATED`, and in the uninstalled list alone for
`UNINSTALLED`. -/
theorem c3_index_lists_follow_last_state {α : Type} [DecidableEq α]
    (calls : List (α × PackageState)) (p : α) :
    (p ∈ (applyStateCalls (emptyIndexState α) calls).fInstalledPackages ↔
      lastSetState calls p = some PackageState.INSTALLED
        ∨ lastSetState calls p = some PackageState.ACTIVATED)
    ∧ (p ∈ (applyStateCalls (emptyIndexState α) calls).fActivatedPackages ↔
      lastSetState calls p = some PackageState.ACTIVATED)
    ∧ (p ∈ (applyStateCalls (emptyIndexState α) calls).fUninstalledPackages ↔
      lastSetState calls p = some PackageState.UNINSTALLED) := by
  have base : IndexInv (emptyIndexState α) (fun _ => none) := by
    refine ⟨List.nodup_nil, List.nodup_nil, List.nodup_nil, ?_⟩
    intro q
    simp [emptyIndexState]
  have h := indexInv_applyStateCalls calls _ _ base
  obtain ⟨_, _, _, hmem⟩ := h
  have hthis := hmem p
  cases hls : lastSetState calls p <;> simp only [hls] at hthis ⊢ <;>
    exact hthis

/-- C8: with duplicate-free index lists (the only lists the model ever
builds), a repeated `SetPackageState` with the same package and state is a
no-op: the second call leaves the whole index state, and so the membership
of every list, exactly as after the first, and both calls leave the own
state field of the package at the set state. -/
theorem c8_set_package_state_idempotent {α : Type} [DecidableEq α]
    (m : ModelIndexState α) (p : α) (s : PackageState)
    (h1 : m.fInstalledPackages.Nodup) (h2 : m.fActivatedPackages.Nodup)
    (h3 : m.fUninstalledPackages.Nodup) :
    setPackageState (setPackageState m p s) p s = setPackageState m p s
    ∧ (setPackageState m p s).pkgState p = s
    ∧ (setPackageState (setPackageState m p s) p s).pkgState p = s := by
  have herase : ∀ (l : List α), l.Nodup → (l.erase p).erase p = l.erase p :=
    fun l hl => List.erase_of_not_mem (List.Nodup.not_mem_erase hl)
  have hstate : ∀ (m' : ModelIndexState α),
      (setPackageState m' p s).pkgState p = s := by
    intro m'
    cases s <;> simp [setPackageState]
  refine ⟨?_, hstate m, hstate _⟩
  cases s <;>
    simp only [setPackageState, ModelIndexState.mk.injEq] <;>
    refine ⟨?_, ?_, ?_, ?_⟩ <;>
    first
      | exact herase _ h1
      | exact herase _ h2
      | exact herase _ h3
      | exact addIfMissing_idem _ _
      | · funext q
          by_cases hq : q = p <;> simp [hq]

/-- Concrete instantiation of the C8 theorem on duplicate-free lists. -/
theorem c8_set_package_state_idempotent_witness :
    setPackageState
      (setPackageState (⟨[1], [2], [3], fun _ => PackageState.NONE⟩ :
        ModelIndexState Nat) 1 PackageState.ACTIVATED) 1 PackageState.ACTIVATED
      = setPackageState (⟨[1], [2], [3], fun _ => PackageState.NONE⟩ :
        ModelIndexState Nat) 1 PackageState.ACTIVATED
    ∧ (setPackageState (⟨[1], [2], [3], fun _ => PackageState.NONE⟩ :
        ModelIndexState Nat) 1 PackageState.ACTIVATED).pkgState 1
      = PackageState.ACTIVATED :=
  ⟨(c8_set_package_state_idempotent _ 1 PackageState.ACTIVATED (by decide)
      (by decide) (by decide)).1,
    (c8_set_package_state_idempotent
      (⟨[1], [2], [3], fun _ => PackageState.NONE⟩ : ModelIndexState Nat) 1
      PackageState.ACTIVATED (by decide) (by decide) (by decide)).2.1⟩

/-- Splitting at a separator never yields the empty list of chunks. -/
theorem exists_splitOn_cons (cs : List Char) :
    ∃ hd tl, cs.splitOn ' ' = hd :: tl := by
  cases h : cs.splitOn ' ' with
  | nil =>
    rw [List.splitOn] at h
    exact absurd h (List.splitOnP_ne_nil _ cs)
  | cons hd tl => exact ⟨hd, tl, rfl⟩

/-- The constructor loop of `SearchTermsFilter` computes the split at space
characters, with the running chunk `acc` prepended to the first chunk, empty
chunks discarded and each kept chunk lower-cased. -/
theorem splitTermsAux_eq (cs : List Char) : ∀ acc : List Char,
    splitTermsAux acc cs
      = (((cs.splitOn ' ').modifyHead (fun h => acc.reverse ++ h)).filter
          (fun t => !t.isEmpty)).map lowerChars := by
  induction cs with
  | nil =>
    intro acc
    by_cases hacc : acc = []
    · subst hacc
      simp [splitTermsAux]
    · rw [splitTermsAux]
      rw [if_neg (by simpa using hacc)]
      simp [hacc]
  | cons c cs ih =>
    intro acc
    obtain ⟨hd, tl, hsplit⟩ := exists_splitOn_cons cs
    by_cases hc : c = ' '
    · subst hc
      have hrhs : (' ' :: cs).splitOn ' ' = [] :: cs.splitOn ' ' := by
        rw [List.splitOn, List.splitOnP_cons]
        simp [List.splitOn]
      rw [splitTermsAux, if_pos rfl, hrhs]
      by_cases hacc : acc = []
      · subst hacc
        rw [ih []]
        simp [hsplit]
      · rw [if_neg (by simpa using hacc), ih []]
        simp [hsplit, hacc]
    · have hrhs : (c :: cs).splitOn ' ' = (c :: hd) :: tl := by
        rw [List.splitOn, List.splitOnP_cons]
        rw [if_neg (by simpa using hc)]
        rw [show cs.splitOnP (fun b => b == ' ') = cs.splitOn ' ' from rfl,
          hsplit]
        rfl
      rw [splitTermsAux, if_neg hc, ih (c :: acc), hrhs, hsplit]
      simp [List.append_assoc]

/-- The stored terms of a constructed filter are exactly the space-separated
lower-cased terms of the search string. -/
theorem mkSearchTermsFilter_terms (s : String) :
    (mkSearchTermsFilter s).fSearchTerms = spaceSeparatedTerms s := by
  rw [mkSearchTermsFilter, spaceSeparatedTerms]
  rw [splitTermsAux_eq]
  obtain ⟨hd, tl, hsplit⟩ := exists_splitOn_cons s.data
  simp [hsplit]

/-- C2 (amended): a non-NULL package is accepted by the filter built from a
search string exactly when every space-separated, lower-cased term of the
string occurs (case-insensitively) in one of the five text fields; the
stored terms are never empty (chunks between consecutive spaces are
discarded), and a string with no terms accepts every non-NULL package. -/
theorem c2_search_terms_accept (s : String) (p : PackageInfo) :
    (searchTermsFilterAccepts (mkSearchTermsFilter s) (some p) = some true ↔
      ∀ term ∈ spaceSeparatedTerms s, packageTextMatches p term = true)
    ∧ (∀ term ∈ (mkSearchTermsFilter s).fSearchTerms, term ≠ [])
    ∧ (spaceSeparatedTerms s = [] →
      searchTermsFilterAccepts (mkSearchTermsFilter s) (some p) = some true) := by
  have hterms := mkSearchTermsFilter_terms s
  refine ⟨?_, ?_, ?_⟩
  · rw [searchTermsFilterAccepts, hterms]
    simp [List.all_eq_true]
  · intro term ht
    rw [hterms, spaceSeparatedTerms] at ht
    simp only [List.mem_map, List.mem_filter] at ht
    obtain ⟨u, ⟨hu1, hu2⟩, rfl⟩ := ht
    intro hnil
    have hu : u = [] := by
      have hlen := congrArg List.length hnil
      simpa [lowerChars] using hlen
    rw [hu] at hu2
    simp at hu2
  · intro h
    rw [searchTermsFilterAccepts, hterms, h]
    rfl

/-- C2 counterexample: the search string holding a tab has exactly the
whitespace-separated terms `a` and `b`, each a substring of the package name
`a b`, yet the filter rejects the package: the constructor splits at space
characters only, so the single stored term contains the tab. -/
theorem c2_counterexample :
    whitespaceSeparatedTerms "a\tb" = [['a'], ['b']]
    ∧ packageTextMatches pkgSpaceAB ['a'] = true
    ∧ packageTextMatches pkgSpaceAB ['b'] = true
    ∧ searchTermsFilterAccepts (mkSearchTermsFilter "a\tb") (some pkgSpaceAB)
      = some false := by
  decide

/-- Concrete instantiation of the C2 theorem: the filter built from the
empty search string (no terms) accepts a non-NULL package. -/
theorem c2_search_terms_accept_witness :
    searchTermsFilterAccepts (mkSearchTermsFilter "") (some pkgSpaceAB)
      = some true :=
  (c2_search_terms_accept "" pkgSpaceAB).2.2 (by decide)

/-- The package loop keeps exactly the matching packages, in order. -/
theorem filterPackagesLoop_eq (m : Model) (ps : List PackageInfo) :
    filterPackagesLoop m ps = ps.filter (MatchesFilter m) := by
  induction ps with
  | nil => rfl
  | cons p rest ih =>
    rw [filterPackagesLoop, List.filter_cons]
    cases h : MatchesFilter m p <;> simp [h, ih]

/-- A string has length zero exactly when it is empty. -/
theorem string_length_eq_zero (s : String) : s.length = 0 ↔ s = "" := by
  cases s with
  | mk data =>
    show data.length = 0 ↔ String.mk data = String.mk []
    rw [List.length_eq_zero]
    exact ⟨fun h => by rw [h], fun h => by injection h⟩

/-- The depot-skip test of `CreatePackageList`, restated: a depot is kept
exactly when the restriction is empty or names the depot. -/
theorem depotKeep_iff (m : Model) (d : DepotInfo) :
    ¬(m.fDepotFilter.length > 0 ∧ m.fDepotFilter ≠ d.name) ↔
      (m.fDepotFilter = "" ∨ m.fDepotFilter = d.name) := by
  rw [not_and_or, not_not, Nat.not_lt, Nat.le_zero, string_length_eq_zero]

/-- The depot loop equals a filter of the depots followed by the per-depot
package filter, concatenated in depot order. -/
theorem createPackageListAux_eq (m : Model) (ds : List DepotInfo) :
    createPackageListAux m ds
      = (ds.filter (fun d =>
          decide (¬(m.fDepotFilter.length > 0 ∧ m.fDepotFilter ≠ d.name)))).bind
        (fun d => d.packages.filter (MatchesFilter m)) := by
  induction ds with
  | nil => rfl
  | cons d rest ih =>
    rw [createPackageListAux, List.filter_cons]
    by_cases h : m.fDepotFilter.length > 0 ∧ m.fDepotFilter ≠ d.name
    · rw [if_pos h, ih]
      simp [h]
    · rw [if_neg h, filterPackagesLoop_eq, ih]
      simp [h]

/-- The conjunction of `MatchesFilter`, restated in propositional form. -/
theorem matchesFilter_iff (m : Model) (p : PackageInfo) :
    MatchesFilter m p = true ↔
      (m.fCategoryFilter p = true ∧ m.fSearchTermsFilter p = true
        ∧ m.fIsFeaturedFilter p = true
        ∧ (m.fShowAvailablePackages = true ∨ p.state ≠ PackageState.NONE)
        ∧ (m.fShowInstalledPackages = true ∨ p.state ≠ PackageState.ACTIVATED)
        ∧ (m.fShowSourcePackages = true ∨ is_source_package p = false)
        ∧ (m.fShowDevelopPackages = true ∨ is_develop_package p = false)) := by
  rw [MatchesFilter]
  simp only [Bool.and_eq_true, Bool.or_eq_true, Bool.not_eq_true',
    beq_eq_false_iff_ne, and_assoc]

/-- C1: `CreatePackageList` keeps exactly the packages of the considered
depots (all of them, or those with the restricted name when the restriction
is non-empty) that pass the conjunction of the category, search-terms and
featured filters and the four show-flag tests; the result is the
concatenation, in depot iteration order, of each kept depot, with its
matching packages in insertion order — no additional sorting. -/
theorem c1_create_package_list (m : Model) (p : PackageInfo) :
    (p ∈ CreatePackageList m ↔
      ∃ depot ∈ m.fDepots,
        (m.fDepotFilter = "" ∨ m.fDepotFilter = depot.name)
        ∧ p ∈ depot.packages
        ∧ m.fCategoryFilter p = true
        ∧ m.fSearchTermsFilter p = true
        ∧ m.fIsFeaturedFilter p = true
        ∧ (m.fShowAvailablePackages = true ∨ p.state ≠ PackageState.NONE)
        ∧ (m.fShowInstalledPackages = true ∨ p.state ≠ PackageState.ACTIVATED)
        ∧ (m.fShowSourcePackages = true ∨ is_source_package p = false)
        ∧ (m.fShowDevelopPackages = true ∨ is_develop_package p = false))
    ∧ CreatePackageList m
      = (m.fDepots.filter (fun d =>
          decide (¬(m.fDepotFilter.length > 0 ∧ m.fDepotFilter ≠ d.name)))).bind
        (fun d => d.packages.filter (MatchesFilter m)) := by
  refine ⟨?_, createPackageListAux_eq m m.fDepots⟩
  rw [CreatePackageList, createPackageListAux_eq]
  simp only [List.mem_bind, List.mem_filter, decide_eq_true_eq,
    depotKeep_iff, matchesFilter_iff]
  constructor
  · rintro ⟨d, ⟨hd, hkeep⟩, hp, hmatch⟩
    exact ⟨d, hd, hkeep, hp, hmatch⟩
  · rintro ⟨d, hd, hkeep, hp, hmatch⟩
    exact ⟨d, ⟨hd, hkeep⟩, hp, hmatch⟩

end HaikuDepot
